import Mathlib

/-!
Verification of the fierce DNS reconnaissance tool (fierce.py) against its
natural-language specification.

The DNS resolver, the zone-transfer transport and the random wildcard label
are external collaborators of the program; they are modelled as an explicit
environment (`DnsEnv`).  The pipeline `fierce` is embedded as a pure function
from a configuration and an environment to the list of actions the program
performs (queries issued and results printed, in order) together with an
optional uncaught Python exception (`RunError`).  Absence of a DNS record
(NXDOMAIN, which `query` in the source converts to `None`) is modelled as
`Option.none`; IPv4 addresses are natural numbers below 2^32.
-/

/-- Errors that can be raised during `dns.zone.from_xfr(dns.query.xfr(...))`.
`ConnectionResetError` and `dns.exception.FormError` are the two exception
types named in the `except` clause of `zone_transfer`; every other exception
is collapsed into the open-world constructor `other`. -/
inductive XfrError where
  | connectionReset
  | formError
  | other (msg : String)
deriving DecidableEq

/-- Outcome of the underlying zone-transfer call: either the parsed zone (a
list of name/record-text pairs, as printed by the source) or a raised error. -/
inductive XfrOutcome where
  | ok (z : List (String × String))
  | raise (e : XfrError)
deriving DecidableEq

/-- `zone_transfer` (fierce.py lines 25-29): wraps the transfer in
`try/except (ConnectionResetError, dns.exception.FormError): return None`.
The two named exception types map to `none` (the absent signal); any other
raised error propagates (modelled with `Except.error`). -/
def zone_transfer (outcome : XfrOutcome) :
    Except XfrError (Option (List (String × String))) :=
  match outcome with
  | XfrOutcome.ok z => Except.ok (some z)
  | XfrOutcome.raise XfrError.connectionReset => Except.ok none
  | XfrOutcome.raise XfrError.formError => Except.ok none
  | XfrOutcome.raise (XfrError.other m) => Except.error (XfrError.other m)

/-- The external DNS collaborator.  Each resolver field returns `none` for the
NXDOMAIN / absent signal (the source's `query` helper converts NXDOMAIN to
`None`); otherwise it returns the piece of the answer the program actually
reads: the first A record's address as an integer, the list of NS record
texts, the first SOA record's mname, the first PTR record's text.  `xfr`
models `dns.zone.from_xfr(dns.query.xfr(address, domain))`, and `randLabel`
the `random.randint(1e10, 1e11)` label used for the wildcard probe. -/
structure DnsEnv where
  resolveA : String → Option Nat
  resolveNS : String → Option (List String)
  resolveSOA : String → Option String
  resolvePTR : Nat → Option String
  xfr : Nat → String → XfrOutcome
  randLabel : Nat

/-- `get_class_c_network` (fierce.py lines 31-36): the /24 network containing
`ip`, represented by its network (base) address `ip - (ip % 256)`.  The
construction `IPv4Network('{}/24'.format(floored))` always succeeds because
the low 8 bits of `floored` are zero, so the Lean embedding is total. -/
def get_class_c_network (ip : Nat) : Nat :=
  ip - ip % 2 ^ 8

/-- The member addresses of the /24 of `ip`, in ascending order: this is what
`list(class_c)` yields in `wide_expander` (all 256 addresses, network and
broadcast included). -/
def classCList (ip : Nat) : List Nat :=
  (List.range 256).map (fun i => get_class_c_network ip + i)

/-- `wide_expander` (fierce.py lines 46-51): all 256 addresses of the /24. -/
def wide_expander (ip : Nat) : List Nat :=
  classCList ip

/-- `ipaddress.IPv4Address(z)` on an integer: succeeds exactly when
`0 <= z < 2^32`; otherwise Python raises `AddressValueError`, modelled as
`none`. -/
def mkIPv4 (z : Int) : Option Nat :=
  if 0 ≤ z ∧ z < 2 ^ 32 then some z.toNat else none

/-- The list comprehension
`[ipaddress.IPv4Address(ip + i) for i in range(-n, n + 1)]`: constructs each
address in turn; the first out-of-range value raises (whole result `none`). -/
def buildAddrs : List Int → Option (List Nat)
  | [] => some []
  | z :: rest =>
    match mkIPv4 z with
    | none => none
    | some a => (buildAddrs rest).map (fun l => a :: l)

/-- `traverse_expander` (fierce.py lines 38-44): the addresses
`ip - n .. ip + n`, filtered to the /24 of `ip` (`i in class_c`).  The
construction of each `IPv4Address` can raise (`none`) when `ip + i` leaves
`[0, 2^32)`; membership in the network is the range test
`base <= a < base + 256`. -/
def traverse_expander (ip n : Nat) : Option (List Nat) :=
  let base := get_class_c_network ip
  let offs := (List.range (2 * n + 1)).map
    (fun (i : Nat) => (ip : Int) + (i : Int) - (n : Int))
  (buildAddrs offs).map
    (fun l => l.filter (fun a => decide (base ≤ a ∧ a < base + 256)))

/-- Character-list prefix test (used to model Python's substring operator). -/
def leading : List Char → List Char → Bool
  | [], _ => true
  | _ :: _, [] => false
  | a :: as, b :: bs => a == b && leading as bs

/-- Contiguous-sublist test on character lists. -/
def occursIn (needle : List Char) : List Char → Bool
  | [] => leading needle []
  | c :: t => leading needle (c :: t) || occursIn needle t

/-- Python's `needle in hay` on strings: case-sensitive contiguous substring
containment. -/
def strContains (hay needle : String) : Bool :=
  occursIn needle.toList hay.toList

/-- `search_filter` (fierce.py lines 53-54):
`any(domain in address for domain in domains)`.  (`address` is in fact the
resolved hostname text at every call site.) -/
def search_filter (domains : List String) (address : String) : Bool :=
  domains.any (fun domain => strContains address domain)

/-- Results the program prints, as structured events. -/
inductive Event where
  | nearbyReport (m : List (Nat × String))
  | nsLine (servers : List String)
  | soaLine (mname : String) (addr : Nat)
  | zoneLine (success : Bool)
  | zoneContents (z : List (String × String))
  | wildcardLine (success : Bool)
  | foundLine (url : String) (ip : Nat)
deriving DecidableEq

/-- Observable actions of a run, in order: DNS queries issued, the
zone-transfer attempt, and printed output. -/
inductive Act where
  | queryA (name : String)
  | queryNS (name : String)
  | querySOA (name : String)
  | queryPTR (addr : Nat)
  | xfrAttempt (addr : Nat) (domain : String)
  | output (e : Event)
deriving DecidableEq

/-- The reverse-lookup mapping built by `find_nearby` (fierce.py lines 56-61):
PTR-resolve every address, drop the unresolved ones, and - when a filter
function was supplied - keep only entries whose first record text passes it.
Keys are the addresses (the source uses their string form `str(i)`). -/
def find_nearby_map (env : DnsEnv) (ips : List Nat)
    (filt : Option (List String)) : List (Nat × String) :=
  let resolved := ips.filterMap (fun i => (env.resolvePTR i).map (fun h => (i, h)))
  match filt with
  | none => resolved
  | some ds => resolved.filter (fun p => search_filter ds p.2)

/-- The action trace of one `find_nearby` call (fierce.py lines 56-67): one
PTR query per address in order, then - only when the surviving mapping is
non-empty - the printed report.  An empty mapping produces no output and no
error (`if not reversed_ips: return`). -/
def findNearbyActs (env : DnsEnv) (ips : List Nat)
    (filt : Option (List String)) : List Act :=
  ips.map Act.queryPTR ++
    (if find_nearby_map env ips filt = [] then []
     else [Act.output (Event.nearbyReport (find_nearby_map env ips filt))])

/-- The configuration `fierce(**kwargs)` receives, after the out-of-scope CLI
parsing and file loading: `subdomains` is the resolved word list, `range` is
the parsed CIDR network as (base address, prefix length). -/
structure Config where
  domain : Option String
  range : Option (Nat × Nat)
  subdomains : List String
  wide : Bool
  traverse : Option Nat
  search : Option (List String)

/-- `list(ipaddress.IPv4Network(range))`: every address of the network. -/
def listNetwork (net : Nat × Nat) : List Nat :=
  (List.range (2 ^ (32 - net.2))).map (fun i => net.1 + i)

/-- Python truthiness of `kwargs.get("search")`: a non-empty list. -/
def searchTruthy (cfg : Config) : Bool :=
  match cfg.search with
  | some l => !l.isEmpty
  | none => false

/-- Python truthiness of `kwargs.get("traverse")`: present and non-zero. -/
def traverseTruthy (cfg : Config) : Bool :=
  match cfg.traverse with
  | some n => n != 0
  | none => false

/-- The traverse window actually passed (`kwargs["traverse"]`). -/
def traverseN (cfg : Config) : Nat :=
  cfg.traverse.getD 0

/-- Uncaught Python exceptions the pipeline can raise. -/
inductive RunError where
  | typeErrorNotIterable
  | typeErrorNotSubscriptable
  | addressValueError
  | uncaughtXfr (e : XfrError)
deriving DecidableEq

/-- Result of the expansion step for one subdomain hit (fierce.py lines
127-132): `skip` models the bare `continue` when neither mode is truthy,
`err` the `AddressValueError` escaping from `traverse_expander`. -/
inductive ExpansionResult where
  | skip
  | err
  | ok (ips : List Nat)
deriving DecidableEq

/-- The expansion dispatch of the subdomain loop (fierce.py lines 127-132). -/
def expansion (cfg : Config) (ip : Nat) : ExpansionResult :=
  if cfg.wide then ExpansionResult.ok (wide_expander ip)
  else if traverseTruthy cfg then
    match traverse_expander ip (traverseN cfg) with
    | some l => ExpansionResult.ok l
    | none => ExpansionResult.err
  else ExpansionResult.skip

/-- The subdomain brute-force loop (fierce.py lines 117-144).  `visited` is
the Python set, represented by the list of its elements in insertion order;
`set(ips) - set(visited)` becomes dedup-then-filter, and `visited |= ips`
appends the surviving batch.  The traversal error aborts the run with the
trace accumulated so far.  (The optional `time.sleep` delay has no observable
effect and is not modelled.) -/
def subdomainLoop (env : DnsEnv) (cfg : Config) (d : String) :
    List String → List Nat → List Act × Option RunError
  | [], _ => ([], none)
  | sd :: rest, visited =>
    let url := sd ++ "." ++ d
    match env.resolveA url with
    | none =>
      let r := subdomainLoop env cfg d rest visited
      (Act.queryA url :: r.1, r.2)
    | some ip =>
      match expansion cfg ip with
      | ExpansionResult.skip =>
        let r := subdomainLoop env cfg d rest visited
        (Act.queryA url :: Act.output (Event.foundLine url ip) :: r.1, r.2)
      | ExpansionResult.err =>
        ([Act.queryA url, Act.output (Event.foundLine url ip)],
         some RunError.addressValueError)
      | ExpansionResult.ok ips =>
        let filt := if searchTruthy cfg then cfg.search else none
        let fresh := ips.dedup.filter (fun a => !(visited.contains a))
        let r := subdomainLoop env cfg d rest (visited ++ fresh)
        (Act.queryA url :: Act.output (Event.foundLine url ip) ::
          (findNearbyActs env fresh filt ++ r.1), r.2)

/-- The internal-range scan portion of the trace (fierce.py lines 83-85):
`find_nearby(resolver, list(internal_range))` - note: no filter function. -/
def rangeActs (cfg : Config) (env : DnsEnv) : List Act :=
  match cfg.range with
  | some net => findNearbyActs env (listNetwork net) none
  | none => []

/-- `fierce` (fierce.py lines 69-144).  Returns the ordered action trace and
the uncaught exception, if any.  Faithful control flow: optional range scan
first; return if the domain is falsy; NS query (iterating a `None` answer
raises `TypeError`); SOA query and master A query (subscripting a `None`
answer raises `TypeError`); zone-transfer attempt (success prints the zone
and returns); wildcard probe; subdomain loop. -/
def fierce (cfg : Config) (env : DnsEnv) : List Act × Option RunError :=
  let acts0 := rangeActs cfg env
  match cfg.domain with
  | none => (acts0, none)
  | some d =>
    if d = "" then (acts0, none)
    else
      let acts1 := acts0 ++ [Act.queryNS d]
      match env.resolveNS d with
      | none => (acts1, some RunError.typeErrorNotIterable)
      | some nss =>
        let acts2 := acts1 ++ [Act.output (Event.nsLine nss), Act.querySOA d]
        match env.resolveSOA d with
        | none => (acts2, some RunError.typeErrorNotSubscriptable)
        | some mname =>
          let acts3 := acts2 ++ [Act.queryA mname]
          match env.resolveA mname with
          | none => (acts3, some RunError.typeErrorNotSubscriptable)
          | some maddr =>
            let acts4 := acts3 ++ [Act.output (Event.soaLine mname maddr),
                                   Act.xfrAttempt maddr d]
            match zone_transfer (env.xfr maddr d) with
            | Except.error e => (acts4, some (RunError.uncaughtXfr e))
            | Except.ok (some z) =>
              (acts4 ++ [Act.output (Event.zoneLine true),
                         Act.output (Event.zoneContents z)], none)
            | Except.ok none =>
              let acts5 := acts4 ++ [Act.output (Event.zoneLine false)]
              let wname := toString env.randLabel ++ "." ++ d
              let acts6 := acts5 ++ [Act.queryA wname,
                Act.output (Event.wildcardLine (env.resolveA wname).isSome)]
              let r := subdomainLoop env cfg d cfg.subdomains []
              (acts6 ++ r.1, r.2)

/-- The visited-set step of the loop (fierce.py lines 138-139), on finite
sets: `ips = set(ips) - set(visited); visited |= ips`.  Returns the surviving
batch and the updated visited set. -/
def filterNew (visited B : Finset Nat) : Finset Nat × Finset Nat :=
  (B \ visited, visited ∪ (B \ visited))

/-- Iterating `filterNew` over a sequence of candidate batches: returns the
list of surviving batches and the final visited set. -/
def runBatches (visited : Finset Nat) :
    List (Finset Nat) → List (Finset Nat) × Finset Nat
  | [] => ([], visited)
  | B :: rest =>
    let p := filterNew visited B
    let r := runBatches p.2 rest
    (p.1 :: r.1, r.2)

/-- Union of a list of finite sets. -/
def unionAll (Bs : List (Finset Nat)) : Finset Nat :=
  Bs.foldr (fun B acc => B ∪ acc) ∅

/-! ### Concrete instances used by witnesses -/

/-- A resolver in which addresses 5 and 6 have PTR records. -/
def envC6 : DnsEnv where
  resolveA := fun _ => none
  resolveNS := fun _ => none
  resolveSOA := fun _ => none
  resolvePTR := fun b =>
    if b = 5 then some "a.corp.test" else if b = 6 then some "b.corp.test" else none
  xfr := fun _ _ => XfrOutcome.raise XfrError.connectionReset
  randLabel := 0

/-- `envC6` with the PTR lookup of address 6 failing. -/
def envC6' : DnsEnv where
  resolveA := fun _ => none
  resolveNS := fun _ => none
  resolveSOA := fun _ => none
  resolvePTR := fun b =>
    if b = 6 then none
    else if b = 5 then some "a.corp.test"
    else if b = 6 then some "b.corp.test" else none
  xfr := fun _ _ => XfrOutcome.raise XfrError.connectionReset
  randLabel := 0

/-- A resolver for a domain-targeted run in which the zone transfer from the
SOA master succeeds. -/
def envC2 : DnsEnv where
  resolveA := fun s => if s = "master.example.test" then some 16909060 else none
  resolveNS := fun s =>
    if s = "example.test" then some ["ns1.example.test", "ns2.example.test"]
    else none
  resolveSOA := fun s =>
    if s = "example.test" then some "master.example.test" else none
  resolvePTR := fun _ => none
  xfr := fun _ _ => XfrOutcome.ok [("www", "A 1.2.3.4"), ("mail", "A 1.2.3.5")]
  randLabel := 77777777777

/-- A domain-targeted configuration with a subdomain word list. -/
def cfgC2 : Config where
  domain := some "example.test"
  range := none
  subdomains := ["www", "mail"]
  wide := false
  traverse := some 5
  search := none

/-- A resolver whose NS lookup for the domain returns the absent signal,
with a PTR record inside the configured internal range. -/
def envC5 : DnsEnv where
  resolveA := fun _ => none
  resolveNS := fun _ => none
  resolveSOA := fun _ => none
  resolvePTR := fun a => if a = 8 then some "h8.corp.test" else none
  xfr := fun _ _ => XfrOutcome.raise XfrError.connectionReset
  randLabel := 0

/-- A domain-targeted configuration that also scans the internal range
0.0.0.8/31. -/
def cfgC5 : Config where
  domain := some "example.test"
  range := some (8, 31)
  subdomains := ["www"]
  wide := false
  traverse := some 5
  search := none

/-- A resolver whose NS lookup succeeds but whose SOA lookup returns the
absent signal. -/
def envC7 : DnsEnv where
  resolveA := fun _ => none
  resolveNS := fun s =>
    if s = "example.test" then some ["ns1.example.test"] else none
  resolveSOA := fun _ => none
  resolvePTR := fun a => if a = 8 then some "h8.corp.test" else none
  xfr := fun _ _ => XfrOutcome.ok []
  randLabel := 0

/-- A resolver for a run combining an internal range (addresses 8 and 9)
with a subdomain hit at 10; address 8's hostname does not contain the
configured substring while 9's does. -/
def envC10 : DnsEnv where
  resolveA := fun s =>
    if s = "master.example.test" then some 999
    else if s = "www.example.test" then some 10 else none
  resolveNS := fun s =>
    if s = "example.test" then some ["ns1.example.test"] else none
  resolveSOA := fun s =>
    if s = "example.test" then some "master.example.test" else none
  resolvePTR := fun a =>
    if a = 8 then some "h8.other.test"
    else if a = 9 then some "h9.corp.test" else none
  xfr := fun _ _ => XfrOutcome.raise XfrError.formError
  randLabel := 55555555555

/-- A configuration with both an internal range (0.0.0.8/31) and a substring
search filter. -/
def cfgC10 : Config where
  domain := some "example.test"
  range := some (8, 31)
  subdomains := ["www"]
  wide := false
  traverse := some 1
  search := some ["corp"]

/-! ### Helper lemmas -/

theorem mem_classCList {ip x : Nat} :
    x ∈ classCList ip ↔
      get_class_c_network ip ≤ x ∧ x < get_class_c_network ip + 256 := by
  unfold classCList
  simp only [List.mem_map, List.mem_range]
  constructor
  · rintro ⟨i, hi, rfl⟩
    omega
  · intro hx
    exact ⟨x - get_class_c_network ip, by omega, by omega⟩

theorem classCList_nodup (ip : Nat) : (classCList ip).Nodup := by
  unfold classCList
  exact (List.nodup_range 256).map (fun a b h => by omega)

theorem buildAddrs_eq_map (zs : List Int) (h : ∀ z ∈ zs, 0 ≤ z ∧ z < 2 ^ 32) :
    buildAddrs zs = some (zs.map Int.toNat) := by
  induction zs with
  | nil => rfl
  | cons z rest ih =>
    have hz := h z (by simp)
    have hrest : ∀ w ∈ rest, 0 ≤ w ∧ w < 2 ^ 32 := fun w hw => h w (by simp [hw])
    unfold buildAddrs mkIPv4
    rw [if_pos hz, ih hrest]
    rfl

theorem mem_find_nearby_map_none {env : DnsEnv} {ips : List Nat} {i : Nat}
    {h : String} :
    (i, h) ∈ find_nearby_map env ips none ↔
      i ∈ ips ∧ env.resolvePTR i = some h := by
  unfold find_nearby_map
  simp only [List.mem_filterMap, Option.map_eq_some']
  constructor
  · rintro ⟨j, hj, h0, hres, heq⟩
    obtain ⟨rfl, rfl⟩ := Prod.mk.injEq .. ▸ heq
    exact ⟨hj, hres⟩
  · rintro ⟨hi, hres⟩
    exact ⟨i, hi, h, hres, rfl⟩

theorem mem_find_nearby_map_some {env : DnsEnv} {ips : List Nat} {ds : List String}
    {i : Nat} {h : String} :
    (i, h) ∈ find_nearby_map env ips (some ds) ↔
      i ∈ ips ∧ env.resolvePTR i = some h ∧ search_filter ds h = true := by
  unfold find_nearby_map
  simp only [List.mem_filter]
  constructor
  · rintro ⟨hmem, hpass⟩
    have := mem_find_nearby_map_none.mp (by exact hmem)
    exact ⟨this.1, this.2, hpass⟩
  · rintro ⟨hi, hres, hpass⟩
    exact ⟨mem_find_nearby_map_none.mpr ⟨hi, hres⟩, hpass⟩

theorem find_nearby_map_some_pass {env : DnsEnv} {ips : List Nat}
    {ds : List String} {p : Nat × String}
    (hp : p ∈ find_nearby_map env ips (some ds)) :
    search_filter ds p.2 = true := by
  obtain ⟨i, h⟩ := p
  exact (mem_find_nearby_map_some.mp hp).2.2

theorem findNearbyActs_mem_cases {env : DnsEnv} {ips : List Nat}
    {filt : Option (List String)} {act : Act}
    (h : act ∈ findNearbyActs env ips filt) :
    (∃ a, a ∈ ips ∧ act = Act.queryPTR a) ∨
      act = Act.output (Event.nearbyReport (find_nearby_map env ips filt)) := by
  unfold findNearbyActs at h
  rw [List.mem_append] at h
  rcases h with h | h
  · obtain ⟨a, ha, rfl⟩ := List.mem_map.mp h
    exact Or.inl ⟨a, ha, rfl⟩
  · right
    by_cases he : find_nearby_map env ips filt = []
    · rw [if_pos he] at h
      simp at h
    · rw [if_neg he] at h
      simpa using h

theorem rangeActs_mem_cases {cfg : Config} {env : DnsEnv} {act : Act}
    (h : act ∈ rangeActs cfg env) :
    (∃ a, act = Act.queryPTR a) ∨
      (∃ m, act = Act.output (Event.nearbyReport m)) := by
  unfold rangeActs at h
  cases hr : cfg.range with
  | none => rw [hr] at h; simp at h
  | some net =>
    rw [hr] at h
    rcases findNearbyActs_mem_cases h with ⟨a, _, rfl⟩ | rfl
    · exact Or.inl ⟨a, rfl⟩
    · exact Or.inr ⟨_, rfl⟩

theorem count_queryPTR_map (ips : List Nat) (a : Nat) :
    (ips.map Act.queryPTR).count (Act.queryPTR a) = ips.count a :=
  List.count_map_of_injective ips Act.queryPTR (fun x y h => by injection h) a

theorem findNearbyActs_count_queryPTR (env : DnsEnv) (ips : List Nat)
    (filt : Option (List String)) (a : Nat) :
    (findNearbyActs env ips filt).count (Act.queryPTR a) = ips.count a := by
  unfold findNearbyActs
  rw [List.count_append, count_queryPTR_map]
  have hz : (if find_nearby_map env ips filt = [] then ([] : List Act)
      else [Act.output (Event.nearbyReport (find_nearby_map env ips filt))]).count
        (Act.queryPTR a) = 0 := by
    split <;> simp [List.count_cons]
  omega

/-! ### C4 -/

/-- C4: for every IPv4 address A, the class-C of A is anchored at
A - (A mod 256) (its low octet is 0 and it does not exceed A), it contains A,
its member list has exactly 256 pairwise-distinct addresses, and membership
is exactly the range [anchor, anchor + 256).  The embedding
`get_class_c_network` is a total function (the source's construction raises
no error for any valid address), and being a function it assigns exactly one
class-C to each address. -/
theorem classC_contains_and_card (ip : Nat) :
    get_class_c_network ip = ip - ip % 256 ∧
    get_class_c_network ip % 256 = 0 ∧
    get_class_c_network ip ≤ ip ∧
    ip ∈ classCList ip ∧
    (classCList ip).length = 256 ∧
    (classCList ip).Nodup ∧
    (∀ x, x ∈ classCList ip ↔
      get_class_c_network ip ≤ x ∧ x < get_class_c_network ip + 256) := by
  have hb : get_class_c_network ip = ip - ip % 256 := by
    unfold get_class_c_network; norm_num
  refine ⟨hb, by omega, by omega, ?_, ?_, classCList_nodup ip, fun x => mem_classCList⟩
  · rw [mem_classCList]
    omega
  · unfold classCList
    simp

/-! ### C8 -/

/-- C8: exactly two error conditions during the zone-transfer attempt - a
connection reset by peer and a malformed-transfer/format protocol error - are
caught and mapped to the absent signal (`Except.ok none`, "transfer
failed"); a successful transfer returns the zone, and every other raised
error propagates uncaught out of `zone_transfer`. -/
theorem zone_transfer_error_taxonomy :
    (∀ o, zone_transfer o = Except.ok none ↔
      o = XfrOutcome.raise XfrError.connectionReset ∨
      o = XfrOutcome.raise XfrError.formError) ∧
    (∀ z, zone_transfer (XfrOutcome.ok z) = Except.ok (some z)) ∧
    (∀ e o, zone_transfer o = Except.error e ↔
      o = XfrOutcome.raise e ∧ ∃ m, e = XfrError.other m) := by
  refine ⟨fun o => ?_, fun z => rfl, fun e o => ?_⟩
  · cases o with
    | ok z => simp [zone_transfer]
    | raise e => cases e <;> simp [zone_transfer]
  · cases o with
    | ok z => simp [zone_transfer]
    | raise e' =>
      cases e' <;> cases e <;> simp [zone_transfer]

/-! ### C3 -/

/-- C3 counterexample: the claim quantifies over every IPv4 address A and
every non-negative n, but at A = 0.0.0.0 and n = 1 the source raises
`AddressValueError` (the comprehension constructs `IPv4Address(-1)`) instead
of returning the in-range addresses of [A-1, A+1] inside classC(A); the
embedding returns `none` (a raised error), not a candidate list. -/
theorem traverse_expander_raises_at_zero : traverse_expander 0 1 = none := by
  decide

/-- C3 (amended): for every IPv4 address A and non-negative n such that the
whole arithmetic window stays inside the address space (n ≤ A and
A + n < 2^32), `traverse_expander` returns exactly the addresses of the
inclusive range [A-n, A+n] that lie within classC(A); addresses of the range
falling outside that /24 are silently dropped - never wrapped, never
clamped, never taken from an adjacent class-C - and n = 0 yields exactly
[A].  (When the window leaves the address space the source instead raises
`AddressValueError`, per the counterexample.) -/
theorem traverse_expander_window (A n : Nat) (h1 : n ≤ A)
    (h2 : A + n < 2 ^ 32) :
    ∃ l, traverse_expander A n = some l ∧
      (∀ x, x ∈ l ↔ (A - n ≤ x ∧ x ≤ A + n) ∧ x ∈ classCList A) ∧
      l.Nodup ∧
      (n = 0 → l = [A]) := by
  have hoffs : ∀ z ∈ (List.range (2 * n + 1)).map
      (fun (i : Nat) => (A : Int) + (i : Int) - (n : Int)), 0 ≤ z ∧ z < 2 ^ 32 := by
    intro z hz
    simp only [List.mem_map, List.mem_range] at hz
    obtain ⟨i, hi, rfl⟩ := hz
    omega
  have hbuild := buildAddrs_eq_map _ hoffs
  have hmapmap : ((List.range (2 * n + 1)).map
      (fun (i : Nat) => (A : Int) + (i : Int) - (n : Int))).map Int.toNat =
      (List.range (2 * n + 1)).map (fun i => A - n + i) := by
    rw [List.map_map]
    refine List.map_congr_left (fun i hi => ?_)
    simp only [Function.comp_apply]
    omega
  refine ⟨((List.range (2 * n + 1)).map (fun i => A - n + i)).filter
    (fun a => decide (get_class_c_network A ≤ a ∧
      a < get_class_c_network A + 256)), ?_, ?_, ?_, ?_⟩
  · show ((buildAddrs ((List.range (2 * n + 1)).map
      (fun (i : Nat) => (A : Int) + (i : Int) - (n : Int)))).map
        (fun l => l.filter (fun a => decide (get_class_c_network A ≤ a ∧
          a < get_class_c_network A + 256)))) = _
    rw [hbuild, hmapmap]
    rfl
  · intro x
    rw [List.mem_filter]
    simp only [List.mem_map, List.mem_range, decide_eq_true_eq]
    rw [mem_classCList]
    constructor
    · rintro ⟨⟨i, hi, rfl⟩, hc⟩
      exact ⟨⟨by omega, by omega⟩, hc⟩
    · rintro ⟨⟨hlo, hhi⟩, hc⟩
      exact ⟨⟨x - (A - n), by omega, by omega⟩, hc⟩
  · exact (((List.nodup_range (2 * n + 1)).map
      (fun a b h => by omega)).filter _)
  · rintro rfl
    have hr1 : List.range (2 * 0 + 1) = [0] := rfl
    rw [hr1]
    have hm : List.map (fun i => A - 0 + i) [0] = [A] := by simp
    rw [hm, List.filter_cons]
    have hp : decide (get_class_c_network A ≤ A ∧
        A < get_class_c_network A + 256) = true := by
      rw [decide_eq_true_eq]
      unfold get_class_c_network
      omega
    rw [if_pos hp]
    rfl

/-- C3 witness: the amended theorem at A = 5, n = 2 (window 3..7 inside the
/24 of 5). -/
theorem traverse_expander_window_witness :
    ∃ l, traverse_expander 5 2 = some l ∧
      (∀ x, x ∈ l ↔ (5 - 2 ≤ x ∧ x ≤ 5 + 2) ∧ x ∈ classCList 5) ∧
      l.Nodup ∧
      (2 = 0 → l = [5]) :=
  traverse_expander_window 5 2 (by decide) (by norm_num)

/-! ### C9 -/

/-- C9: the mapping emitted by `find_nearby` contains exactly those input
addresses that have a PTR record and - when a substring filter is supplied -
whose resolved hostname text contains at least one configured substring
under case-sensitive containment (all resolved addresses are kept when no
filter is supplied); and when this mapping is empty, `find_nearby` emits no
report at all (the trace is just the PTR queries) and raises no error (the
embedding is total). -/
theorem find_nearby_postcondition (env : DnsEnv) (ips : List Nat) :
    (∀ i h, (i, h) ∈ find_nearby_map env ips none ↔
      i ∈ ips ∧ env.resolvePTR i = some h) ∧
    (∀ ds i h, (i, h) ∈ find_nearby_map env ips (some ds) ↔
      i ∈ ips ∧ env.resolvePTR i = some h ∧ search_filter ds h = true) ∧
    (∀ filt, find_nearby_map env ips filt = [] →
      findNearbyActs env ips filt = ips.map Act.queryPTR) := by
  refine ⟨fun i h => mem_find_nearby_map_none,
    fun ds i h => mem_find_nearby_map_some, fun filt he => ?_⟩
  unfold findNearbyActs
  rw [if_pos he, List.append_nil]

/-! ### C6 -/

/-- C6: in `find_nearby`, every address of the (duplicate-free) input batch
is PTR-queried exactly once, and a lookup returning the absent signal for
one address does not abort the lookups of the remaining addresses: changing
the resolver so that address `a` fails leaves the emitted mapping for the
other addresses untouched (it equals the old mapping with the entry of `a`
removed), and the failing address is simply not part of the emitted
mapping. -/
theorem find_nearby_isolation (env env' : DnsEnv) (ips : List Nat)
    (filt : Option (List String)) (a : Nat)
    (hnd : ips.Nodup)
    (hagree : ∀ b, b ≠ a → env'.resolvePTR b = env.resolvePTR b)
    (hfail : env'.resolvePTR a = none) :
    (∀ b ∈ ips, (findNearbyActs env ips filt).count (Act.queryPTR b) = 1) ∧
    find_nearby_map env' ips filt =
      (find_nearby_map env ips filt).filter (fun p => p.1 != a) ∧
    (∀ h, (a, h) ∉ find_nearby_map env' ips filt) := by
  have key : ∀ l : List Nat,
      l.filterMap (fun i => (env'.resolvePTR i).map (fun h => (i, h))) =
      (l.filterMap (fun i => (env.resolvePTR i).map (fun h => (i, h)))).filter
        (fun p => p.1 != a) := by
    intro l
    induction l with
    | nil => rfl
    | cons i t ih =>
      by_cases hi : i = a
      · subst hi
        rw [List.filterMap_cons_none (by rw [hfail]; rfl)]
        cases henv : env.resolvePTR i with
        | none =>
          rw [List.filterMap_cons_none (by rw [henv]; rfl)]
          exact ih
        | some h =>
          rw [List.filterMap_cons_some (by rw [henv]; rfl)]
          rw [List.filter_cons]
          simp only [bne_self_eq_false, Bool.false_eq_true, if_false]
          exact ih
      · have heq := hagree i hi
        cases henv : env.resolvePTR i with
        | none =>
          rw [List.filterMap_cons_none (by rw [heq, henv]; rfl),
            List.filterMap_cons_none (by rw [henv]; rfl)]
          exact ih
        | some h =>
          rw [List.filterMap_cons_some (by rw [heq, henv]; rfl),
            List.filterMap_cons_some (by rw [henv]; rfl)]
          rw [List.filter_cons]
          have : (((i, h).1 != a)) = true := by simpa using hi
          rw [this]
          simp only [if_true]
          rw [ih]
  refine ⟨fun b hb => ?_, ?_, fun h hm => ?_⟩
  · rw [findNearbyActs_count_queryPTR]
    exact List.count_eq_one_of_mem hnd hb
  · cases filt with
    | none => exact key ips
    | some ds =>
      show (List.filterMap _ ips).filter _ =
        ((List.filterMap _ ips).filter _).filter _
      rw [key ips, List.filter_filter, List.filter_filter]
      exact List.filter_congr (fun p _ => Bool.and_comm _ _)
  · cases filt with
    | none =>
      have := mem_find_nearby_map_none.mp hm
      rw [hfail] at this
      exact Option.noConfusion this.2
    | some ds =>
      have := mem_find_nearby_map_some.mp hm
      rw [hfail] at this
      exact Option.noConfusion this.2.1

/-- C6 witness: the theorem at the concrete batch [5, 6], no filter, with the
lookup of address 6 failing in `envC6'`. -/
theorem find_nearby_isolation_witness :
    (∀ b ∈ [5, 6], (findNearbyActs envC6 [5, 6] none).count (Act.queryPTR b) = 1) ∧
    find_nearby_map envC6' [5, 6] none =
      (find_nearby_map envC6 [5, 6] none).filter (fun p => p.1 != 6) ∧
    (∀ h, (6, h) ∉ find_nearby_map envC6' [5, 6] none) :=
  find_nearby_isolation envC6 envC6' [5, 6] none 6 (by decide)
    (fun b hb => by simp only [envC6', envC6, if_neg hb]) rfl

/-! ### C1 helper lemmas -/

theorem count_queryPTR_cons_nonPTR (x : Act) (hx : ∀ b, x ≠ Act.queryPTR b)
    (l : List Act) (a : Nat) :
    (x :: l).count (Act.queryPTR a) = l.count (Act.queryPTR a) := by
  rw [List.count_cons]
  have : (x == Act.queryPTR a) = false := by
    cases hb : x == Act.queryPTR a
    · rfl
    · exact absurd (eq_of_beq hb) (hx a)
  rw [this]
  rfl

theorem subdomainLoop_count (env : DnsEnv) (cfg : Config) (d : String) :
    ∀ (sds : List String) (visited : List Nat) (a : Nat),
      (subdomainLoop env cfg d sds visited).1.count (Act.queryPTR a) ≤ 1 ∧
      (a ∈ visited →
        (subdomainLoop env cfg d sds visited).1.count (Act.queryPTR a) = 0) := by
  intro sds
  induction sds with
  | nil =>
    intro visited a
    simp [subdomainLoop]
  | cons sd rest ih =>
    intro visited a
    cases hA : env.resolveA (sd ++ "." ++ d) with
    | none =>
      have hrec := ih visited a
      have hform : (subdomainLoop env cfg d (sd :: rest) visited).1.count
          (Act.queryPTR a) =
          (subdomainLoop env cfg d rest visited).1.count (Act.queryPTR a) := by
        simp only [subdomainLoop, hA]
        rw [count_queryPTR_cons_nonPTR _ (fun b h => Act.noConfusion h)]
      rw [hform]
      exact hrec
    | some ip =>
      cases hE : expansion cfg ip with
      | skip =>
        have hrec := ih visited a
        have hform : (subdomainLoop env cfg d (sd :: rest) visited).1.count
            (Act.queryPTR a) =
            (subdomainLoop env cfg d rest visited).1.count (Act.queryPTR a) := by
          simp only [subdomainLoop, hA, hE]
          rw [count_queryPTR_cons_nonPTR _ (fun b h => Act.noConfusion h),
            count_queryPTR_cons_nonPTR _ (fun b h => Act.noConfusion h)]
        rw [hform]
        exact hrec
      | err =>
        have hform : (subdomainLoop env cfg d (sd :: rest) visited).1.count
            (Act.queryPTR a) = 0 := by
          simp only [subdomainLoop, hA, hE]
          rw [count_queryPTR_cons_nonPTR _ (fun b h => Act.noConfusion h),
            count_queryPTR_cons_nonPTR _ (fun b h => Act.noConfusion h)]
          rfl
        rw [hform]
        exact ⟨by omega, fun _ => rfl⟩
      | ok ips =>
        have hfreshNodup : (ips.dedup.filter
            (fun x => !(visited.contains x))).Nodup :=
          (List.nodup_dedup ips).filter _
        have hfcount : (ips.dedup.filter
            (fun x => !(visited.contains x))).count a ≤ 1 :=
          List.nodup_iff_count_le_one.mp hfreshNodup a
        have hmemfresh : a ∈ ips.dedup.filter (fun x => !(visited.contains x)) →
            a ∉ visited := by
          intro hf hv
          have h2 := (List.mem_filter.mp hf).2
          have h3 : visited.contains a = true := List.elem_iff.mpr hv
          rw [h3] at h2
          simp at h2
        have hrec := ih (visited ++ ips.dedup.filter
            (fun x => !(visited.contains x))) a
        have hform : (subdomainLoop env cfg d (sd :: rest) visited).1.count
            (Act.queryPTR a) =
            (ips.dedup.filter (fun x => !(visited.contains x))).count a +
            (subdomainLoop env cfg d rest (visited ++ ips.dedup.filter
              (fun x => !(visited.contains x)))).1.count (Act.queryPTR a) := by
          simp only [subdomainLoop, hA, hE]
          rw [count_queryPTR_cons_nonPTR _ (fun b h => Act.noConfusion h),
            count_queryPTR_cons_nonPTR _ (fun b h => Act.noConfusion h),
            List.count_append, findNearbyActs_count_queryPTR]
        rw [hform]
        constructor
        · by_cases hf : a ∈ ips.dedup.filter (fun x => !(visited.contains x))
          · have h0 := hrec.2 (List.mem_append.mpr (Or.inr hf))
            omega
          · have h0 : (ips.dedup.filter (fun x => !(visited.contains x))).count a = 0 :=
              List.count_eq_zero.mpr hf
            have := hrec.1
            omega
        · intro hv
          have hnf : a ∉ ips.dedup.filter (fun x => !(visited.contains x)) :=
            fun hf => (hmemfresh hf) hv
          have h0 : (ips.dedup.filter (fun x => !(visited.contains x))).count a = 0 :=
            List.count_eq_zero.mpr hnf
          have h1 := hrec.2 (List.mem_append.mpr (Or.inl hv))
          omega

theorem runBatches_spec :
    ∀ (Bs : List (Finset Nat)) (v : Finset Nat),
      (∀ F ∈ (runBatches v Bs).1, Disjoint F v) ∧
      List.Pairwise Disjoint (runBatches v Bs).1 ∧
      (runBatches v Bs).2 = v ∪ unionAll Bs ∧
      ((runBatches v Bs).1.map Finset.card).sum = (unionAll Bs \ v).card := by
  intro Bs
  induction Bs with
  | nil =>
    intro v
    simp [runBatches, unionAll]
  | cons B rest ih =>
    intro v
    obtain ⟨ihd, ihp, ihu, ihs⟩ := ih (v ∪ (B \ v))
    have hv' : v ∪ (B \ v) = v ∪ B := Finset.union_sdiff_self_eq_union
    have hstep : runBatches v (B :: rest) =
        ((B \ v) :: (runBatches (v ∪ (B \ v)) rest).1,
          (runBatches (v ∪ (B \ v)) rest).2) := rfl
    have hUcons : unionAll (B :: rest) = B ∪ unionAll rest := rfl
    refine ⟨?_, ?_, ?_, ?_⟩
    · intro F hF
      rw [hstep] at hF
      rcases List.mem_cons.mp hF with rfl | hF
      · exact Finset.sdiff_disjoint
      · have := ihd F hF
        rw [hv', Finset.disjoint_union_right] at this
        exact this.1
    · rw [hstep]
      rw [List.pairwise_cons]
      refine ⟨fun F hF => ?_, ihp⟩
      have := ihd F hF
      rw [hv', Finset.disjoint_union_right] at this
      exact Finset.disjoint_of_subset_left Finset.sdiff_subset this.2.symm
    · rw [hstep]
      show (runBatches (v ∪ (B \ v)) rest).2 = v ∪ unionAll (B :: rest)
      rw [ihu, hv', hUcons, Finset.union_assoc]
    · rw [hstep]
      show (B \ v).card + ((runBatches (v ∪ (B \ v)) rest).1.map Finset.card).sum
        = (unionAll (B :: rest) \ v).card
      rw [ihs, hv', hUcons]
      have hsplit : (B ∪ unionAll rest) \ v =
          (B \ v) ∪ (unionAll rest \ (v ∪ B)) := by
        ext x
        simp only [Finset.mem_sdiff, Finset.mem_union]
        tauto
      have hdisj : Disjoint (B \ v) (unionAll rest \ (v ∪ B)) := by
        rw [Finset.disjoint_left]
        intro x hx hx'
        simp only [Finset.mem_sdiff, Finset.mem_union] at hx hx'
        tauto
      rw [hsplit, Finset.card_union_of_disjoint hdisj]

/-! ### C1 -/

/-- C1: deduplication invariant of the visited set.  First part: in the
subdomain brute-force loop of one run (any environment, any configuration),
every IPv4 address is PTR-queried - that is, passed to `find_nearby` - at
most once, no matter how many subdomain hits' candidate neighborhoods
contain it.  Second part, on the visited-set step itself (`filterNew`,
lines 138-139): for any sequence of candidate batches, the surviving batches
are pairwise disjoint, the visited set only grows, and starting from the
empty visited set the total size of the surviving batches equals the size of
the union of all input batches. -/
theorem visited_dedup_invariant :
    (∀ (env : DnsEnv) (cfg : Config) (d : String) (sds : List String) (a : Nat),
      (subdomainLoop env cfg d sds []).1.count (Act.queryPTR a) ≤ 1) ∧
    (∀ (Bs : List (Finset Nat)) (v : Finset Nat),
      List.Pairwise Disjoint (runBatches v Bs).1 ∧
      v ⊆ (runBatches v Bs).2 ∧
      ((runBatches ∅ Bs).1.map Finset.card).sum = (unionAll Bs).card) := by
  refine ⟨fun env cfg d sds a => (subdomainLoop_count env cfg d sds [] a).1,
    fun Bs v => ⟨(runBatches_spec Bs v).2.1, ?_, ?_⟩⟩
  · rw [(runBatches_spec Bs v).2.2.1]
    exact Finset.subset_union_left
  · have := (runBatches_spec Bs ∅).2.2.2
    simpa using this

/-! ### C2 -/

/-- C2: zone-transfer short-circuit.  In a domain-targeted run whose NS,
SOA and master-A lookups succeed, if the zone transfer from the SOA master
succeeds, the whole trace of the run is exactly: the internal-range scan,
the NS/SOA stages, the transfer attempt, and the printed zone contents -
the run terminates normally right there, so the wildcard probe is never
issued and no subdomain of the wordlist is ever resolved after the
successful transfer (the only A query in the entire trace is the SOA
master's, since the range scan issues no A queries). -/
theorem fierce_trace_C2 (cfg : Config) (env : DnsEnv)
    (d : String) (nss : List String) (m : String) (maddr : Nat)
    (z : List (String × String))
    (hdom : cfg.domain = some d) (hne : d ≠ "")
    (hns : env.resolveNS d = some nss)
    (hsoa : env.resolveSOA d = some m)
    (hm : env.resolveA m = some maddr)
    (hx : env.xfr maddr d = XfrOutcome.ok z) :
    fierce cfg env =
      (rangeActs cfg env ++
        [Act.queryNS d, Act.output (Event.nsLine nss), Act.querySOA d,
         Act.queryA m, Act.output (Event.soaLine m maddr),
         Act.xfrAttempt maddr d, Act.output (Event.zoneLine true),
         Act.output (Event.zoneContents z)], none) ∧
    (∀ s, Act.queryA s ∉ rangeActs cfg env) := by
  constructor
  · simp only [fierce, hdom, hns, hsoa, hm, hx, if_neg hne, zone_transfer]
    simp [List.append_assoc]
  · intro s hmem
    rcases rangeActs_mem_cases hmem with ⟨a, ha⟩ | ⟨mm, hmm⟩
    · exact Act.noConfusion ha
    · exact Act.noConfusion hmm

/-- C2 witness: a concrete run in which the zone transfer succeeds. -/
theorem fierce_trace_C2_witness :
    fierce cfgC2 envC2 =
      (rangeActs cfgC2 envC2 ++
        [Act.queryNS "example.test",
         Act.output (Event.nsLine ["ns1.example.test", "ns2.example.test"]),
         Act.querySOA "example.test", Act.queryA "master.example.test",
         Act.output (Event.soaLine "master.example.test" 16909060),
         Act.xfrAttempt 16909060 "example.test",
         Act.output (Event.zoneLine true),
         Act.output (Event.zoneContents
           [("www", "A 1.2.3.4"), ("mail", "A 1.2.3.5")])], none) ∧
    (∀ s, Act.queryA s ∉ rangeActs cfgC2 envC2) :=
  fierce_trace_C2 cfgC2 envC2 "example.test"
    ["ns1.example.test", "ns2.example.test"] "master.example.test" 16909060
    [("www", "A 1.2.3.4"), ("mail", "A 1.2.3.5")]
    rfl (by decide) rfl rfl rfl rfl

/-! ### C5 -/

/-- C5 (code bug): when the NS query for the domain returns the absent
signal, the run does NOT report an empty nameserver list and proceed to the
SOA stage; instead line 91 iterates over `None` and the run dies with an
uncaught `TypeError`.  The trace ends right after the NS query (the SOA
stage is never reached) and no NS line - empty or otherwise - is ever
printed. -/
theorem fierce_trace_C5 (cfg : Config) (env : DnsEnv) (d : String)
    (hdom : cfg.domain = some d) (hne : d ≠ "")
    (hns : env.resolveNS d = none) :
    fierce cfg env =
      (rangeActs cfg env ++ [Act.queryNS d],
       some RunError.typeErrorNotIterable) ∧
    (∀ l, Act.output (Event.nsLine l) ∉ (fierce cfg env).1) := by
  have h1 : fierce cfg env =
      (rangeActs cfg env ++ [Act.queryNS d],
       some RunError.typeErrorNotIterable) := by
    simp only [fierce, hdom, hns, if_neg hne]
  refine ⟨h1, fun l hmem => ?_⟩
  rw [h1] at hmem
  rcases List.mem_append.mp hmem with hmem | hmem
  · rcases rangeActs_mem_cases hmem with ⟨a, ha⟩ | ⟨mm, hmm⟩
    · exact Act.noConfusion ha
    · injection hmm with he
      exact Event.noConfusion he
  · rcases List.mem_singleton.mp hmem with h
    exact Act.noConfusion h

/-- C5 witness: a concrete run (with an internal-range scan configured)
whose NS lookup returns the absent signal. -/
theorem fierce_trace_C5_witness :
    fierce cfgC5 envC5 =
      (rangeActs cfgC5 envC5 ++ [Act.queryNS "example.test"],
       some RunError.typeErrorNotIterable) ∧
    (∀ l, Act.output (Event.nsLine l) ∉ (fierce cfgC5 envC5).1) :=
  fierce_trace_C5 cfgC5 envC5 "example.test" rfl (by decide) rfl

/-! ### C7 -/

/-- C7: SOA failure is fatal for the domain-targeted portion.  If the SOA
query for the domain - or the A query for the SOA master name - yields no
usable record, the run raises an uncaught `TypeError` (subscripting `None`)
and terminates: the trace is exactly the internal-range scan (whose
findings were already emitted) followed by the NS stage, the SOA query and,
in the master-A case, that one A query.  No zone-transfer attempt appears
in the trace, and the only reverse lookups in it are the internal-range
scan's. -/
theorem fierce_trace_C7 (cfg : Config) (env : DnsEnv) (d : String)
    (nss : List String)
    (hdom : cfg.domain = some d) (hne : d ≠ "")
    (hns : env.resolveNS d = some nss)
    (hfail : env.resolveSOA d = none ∨
      ∃ m, env.resolveSOA d = some m ∧ env.resolveA m = none) :
    fierce cfg env =
      (rangeActs cfg env ++
        [Act.queryNS d, Act.output (Event.nsLine nss), Act.querySOA d] ++
        (match env.resolveSOA d with
         | none => []
         | some m => [Act.queryA m]),
       some RunError.typeErrorNotSubscriptable) ∧
    (∀ a dd, Act.xfrAttempt a dd ∉ (fierce cfg env).1) ∧
    (∀ a, Act.queryPTR a ∈ (fierce cfg env).1 →
      Act.queryPTR a ∈ rangeActs cfg env) := by
  rcases hfail with hsoa | ⟨m, hsoa, hm⟩
  · have h1 : fierce cfg env =
        (rangeActs cfg env ++
          [Act.queryNS d, Act.output (Event.nsLine nss), Act.querySOA d],
         some RunError.typeErrorNotSubscriptable) := by
      simp only [fierce, hdom, hns, hsoa, if_neg hne]
      simp [List.append_assoc]
    rw [hsoa]
    refine ⟨by rw [h1]; simp, fun a dd hmem => ?_, fun a hmem => ?_⟩
    · rw [h1] at hmem
      rcases List.mem_append.mp hmem with hmem | hmem
      · rcases rangeActs_mem_cases hmem with ⟨b, hb⟩ | ⟨mm, hmm⟩
        · exact Act.noConfusion hb
        · exact Act.noConfusion hmm
      · simp only [List.mem_cons, List.not_mem_nil, or_false] at hmem
        rcases hmem with h | h | h
        · exact Act.noConfusion h
        · exact Act.noConfusion h
        · exact Act.noConfusion h
    · rw [h1] at hmem
      rcases List.mem_append.mp hmem with hmem | hmem
      · exact hmem
      · simp only [List.mem_cons, List.not_mem_nil, or_false] at hmem
        rcases hmem with h | h | h
        · exact Act.noConfusion h
        · exact Act.noConfusion h
        · exact Act.noConfusion h
  · have h1 : fierce cfg env =
        (rangeActs cfg env ++
          [Act.queryNS d, Act.output (Event.nsLine nss), Act.querySOA d,
           Act.queryA m],
         some RunError.typeErrorNotSubscriptable) := by
      simp only [fierce, hdom, hns, hsoa, hm, if_neg hne]
      simp [List.append_assoc]
    rw [hsoa]
    refine ⟨by rw [h1]; simp, fun a dd hmem => ?_, fun a hmem => ?_⟩
    · rw [h1] at hmem
      rcases List.mem_append.mp hmem with hmem | hmem
      · rcases rangeActs_mem_cases hmem with ⟨b, hb⟩ | ⟨mm, hmm⟩
        · exact Act.noConfusion hb
        · exact Act.noConfusion hmm
      · simp only [List.mem_cons, List.not_mem_nil, or_false] at hmem
        rcases hmem with h | h | h | h
        · exact Act.noConfusion h
        · exact Act.noConfusion h
        · exact Act.noConfusion h
        · exact Act.noConfusion h
    · rw [h1] at hmem
      rcases List.mem_append.mp hmem with hmem | hmem
      · exact hmem
      · simp only [List.mem_cons, List.not_mem_nil, or_false] at hmem
        rcases hmem with h | h | h | h
        · exact Act.noConfusion h
        · exact Act.noConfusion h
        · exact Act.noConfusion h
        · exact Act.noConfusion h

/-- C7 witness: a concrete run (with an internal-range scan whose finding
is reported first) whose SOA lookup returns the absent signal. -/
theorem fierce_trace_C7_witness :
    fierce cfgC5 envC7 =
      (rangeActs cfgC5 envC7 ++
        [Act.queryNS "example.test",
         Act.output (Event.nsLine ["ns1.example.test"]),
         Act.querySOA "example.test"] ++ [],
       some RunError.typeErrorNotSubscriptable) ∧
    (∀ a dd, Act.xfrAttempt a dd ∉ (fierce cfgC5 envC7).1) ∧
    (∀ a, Act.queryPTR a ∈ (fierce cfgC5 envC7).1 →
      Act.queryPTR a ∈ rangeActs cfgC5 envC7) :=
  fierce_trace_C7 cfgC5 envC7 "example.test" ["ns1.example.test"]
    rfl (by decide) rfl (Or.inl rfl)

theorem subdomainLoop_reports_filtered (env : DnsEnv) (cfg : Config)
    (d : String) (l : List String) (hs : cfg.search = some l) (hl : l ≠ []) :
    ∀ (sds : List String) (visited : List Nat) (m : List (Nat × String)),
      Act.output (Event.nearbyReport m) ∈ (subdomainLoop env cfg d sds visited).1 →
      ∀ p ∈ m, search_filter l p.2 = true := by
  have hst : searchTruthy cfg = true := by
    rw [searchTruthy, hs]
    cases l with
    | nil => exact absurd rfl hl
    | cons a t => rfl
  intro sds
  induction sds with
  | nil =>
    intro visited m hm
    simp [subdomainLoop] at hm
  | cons sd rest ih =>
    intro visited m hm
    cases hA : env.resolveA (sd ++ "." ++ d) with
    | none =>
      simp only [subdomainLoop, hA] at hm
      rcases List.mem_cons.mp hm with h | h
      · exact Act.noConfusion h
      · exact ih visited m h
    | some ip =>
      cases hE : expansion cfg ip with
      | skip =>
        simp only [subdomainLoop, hA, hE] at hm
        rcases List.mem_cons.mp hm with h | h
        · exact Act.noConfusion h
        · rcases List.mem_cons.mp h with h' | h'
          · injection h' with he
            exact Event.noConfusion he
          · exact ih visited m h'
      | err =>
        simp only [subdomainLoop, hA, hE] at hm
        rcases List.mem_cons.mp hm with h | h
        · exact Act.noConfusion h
        · rcases List.mem_cons.mp h with h' | h'
          · injection h' with he
            exact Event.noConfusion he
          · exact absurd h' (List.not_mem_nil _)
      | ok ips =>
        simp only [subdomainLoop, hA, hE, hst, if_true, hs] at hm
        rcases List.mem_cons.mp hm with h | h
        · exact Act.noConfusion h
        · rcases List.mem_cons.mp h with h' | h'
          · injection h' with he
            exact Event.noConfusion he
          · rcases List.mem_append.mp h' with h2 | h2
            · rcases findNearbyActs_mem_cases h2 with ⟨a, _, ha⟩ | hrep
              · exact Act.noConfusion ha
              · injection hrep with he
                injection he with hm'
                subst hm'
                exact fun p hp => find_nearby_map_some_pass hp
            · exact ih _ m h2

theorem fierce_split (cfg : Config) (env : DnsEnv) (l : List String)
    (hs : cfg.search = some l) (hl : l ≠ []) :
    ∃ rest, (fierce cfg env).1 = rangeActs cfg env ++ rest ∧
      (∀ m, Act.output (Event.nearbyReport m) ∈ rest →
        ∀ p ∈ m, search_filter l p.2 = true) := by
  cases hd : cfg.domain with
  | none =>
    refine ⟨[], ?_, ?_⟩
    · simp only [fierce, hd]
      simp
    · intro m hm
      exact absurd hm (List.not_mem_nil _)
  | some d =>
    by_cases hde : d = ""
    · refine ⟨[], ?_, ?_⟩
      · simp only [fierce, hd, hde, if_pos rfl]
        simp [hde]
      · intro m hm
        exact absurd hm (List.not_mem_nil _)
    · cases hns : env.resolveNS d with
      | none =>
        refine ⟨[Act.queryNS d], ?_, ?_⟩
        · simp only [fierce, hd, hns, if_neg hde]
        · intro m hm
          rcases List.mem_singleton.mp hm with h
          exact Act.noConfusion h
      | some nss =>
        cases hsoa : env.resolveSOA d with
        | none =>
          refine ⟨[Act.queryNS d, Act.output (Event.nsLine nss),
            Act.querySOA d], ?_, ?_⟩
          · simp only [fierce, hd, hns, hsoa, if_neg hde]
            simp [List.append_assoc]
          · intro m hm
            rcases List.mem_cons.mp hm with h | h
            · exact Act.noConfusion h
            · rcases List.mem_cons.mp h with h' | h'
              · injection h' with he
                exact Event.noConfusion he
              · rcases List.mem_singleton.mp h' with h2
                exact Act.noConfusion h2
        | some mn =>
          cases hmA : env.resolveA mn with
          | none =>
            refine ⟨[Act.queryNS d, Act.output (Event.nsLine nss),
              Act.querySOA d, Act.queryA mn], ?_, ?_⟩
            · simp only [fierce, hd, hns, hsoa, hmA, if_neg hde]
              simp [List.append_assoc]
            · intro m hm
              rcases List.mem_cons.mp hm with h | h
              · exact Act.noConfusion h
              · rcases List.mem_cons.mp h with h' | h'
                · injection h' with he
                  exact Event.noConfusion he
                · rcases List.mem_cons.mp h' with h2 | h2
                  · exact Act.noConfusion h2
                  · rcases List.mem_singleton.mp h2 with h3
                    exact Act.noConfusion h3
          | some maddr =>
            cases hz : zone_transfer (env.xfr maddr d) with
            | error e =>
              refine ⟨[Act.queryNS d, Act.output (Event.nsLine nss),
                Act.querySOA d, Act.queryA mn,
                Act.output (Event.soaLine mn maddr),
                Act.xfrAttempt maddr d], ?_, ?_⟩
              · simp only [fierce, hd, hns, hsoa, hmA, hz, if_neg hde]
                simp [List.append_assoc]
              · intro m hm
                simp only [List.mem_cons, List.not_mem_nil, or_false] at hm
                rcases hm with h | h | h | h | h | h
                · exact Act.noConfusion h
                · injection h with he
                  exact Event.noConfusion he
                · exact Act.noConfusion h
                · exact Act.noConfusion h
                · injection h with he
                  exact Event.noConfusion he
                · exact Act.noConfusion h
            | ok zo =>
              cases zo with
              | some z =>
                refine ⟨[Act.queryNS d, Act.output (Event.nsLine nss),
                  Act.querySOA d, Act.queryA mn,
                  Act.output (Event.soaLine mn maddr),
                  Act.xfrAttempt maddr d, Act.output (Event.zoneLine true),
                  Act.output (Event.zoneContents z)], ?_, ?_⟩
                · simp only [fierce, hd, hns, hsoa, hmA, hz, if_neg hde]
                  simp [List.append_assoc]
                · intro m hm
                  simp only [List.mem_cons, List.not_mem_nil, or_false] at hm
                  rcases hm with h | h | h | h | h | h | h | h
                  · exact Act.noConfusion h
                  · injection h with he
                    exact Event.noConfusion he
                  · exact Act.noConfusion h
                  · exact Act.noConfusion h
                  · injection h with he
                    exact Event.noConfusion he
                  · exact Act.noConfusion h
                  · injection h with he
                    exact Event.noConfusion he
                  · injection h with he
                    exact Event.noConfusion he
              | none =>
                refine ⟨[Act.queryNS d, Act.output (Event.nsLine nss),
                  Act.querySOA d, Act.queryA mn,
                  Act.output (Event.soaLine mn maddr),
                  Act.xfrAttempt maddr d, Act.output (Event.zoneLine false),
                  Act.queryA (toString env.randLabel ++ "." ++ d),
                  Act.output (Event.wildcardLine
                    (env.resolveA (toString env.randLabel ++ "." ++ d)).isSome)] ++
                  (subdomainLoop env cfg d cfg.subdomains []).1, ?_, ?_⟩
                · simp only [fierce, hd, hns, hsoa, hmA, hz, if_neg hde]
                  simp [List.append_assoc]
                · intro m hm
                  rcases List.mem_append.mp hm with h | h
                  · simp only [List.mem_cons, List.not_mem_nil, or_false] at h
                    rcases h with h | h | h | h | h | h | h | h | h
                    · exact Act.noConfusion h
                    · injection h with he
                      exact Event.noConfusion he
                    · exact Act.noConfusion h
                    · exact Act.noConfusion h
                    · injection h with he
                      exact Event.noConfusion he
                    · exact Act.noConfusion h
                    · injection h with he
                      exact Event.noConfusion he
                    · exact Act.noConfusion h
                    · injection h with he
                      exact Event.noConfusion he
                  · exact subdomainLoop_reports_filtered env cfg d l hs hl
                      cfg.subdomains [] m h

/-! ### C10 -/

/-- C10: when an internal IP range is configured together with a (non-empty)
substring search filter, the internal-range scan's portion of the trace is
exactly a `find_nearby` call with NO filter - so every address of the range
with a PTR record appears in its mapping, filter or not - while every
nearby-report emitted by the rest of the run (the subdomain-hit batches)
contains only entries whose hostname passes the configured filter. -/
theorem internal_range_unfiltered (cfg : Config) (env : DnsEnv)
    (net : Nat × Nat) (l : List String)
    (hr : cfg.range = some net) (hs : cfg.search = some l) (hl : l ≠ []) :
    (∃ rest, (fierce cfg env).1 =
        findNearbyActs env (listNetwork net) none ++ rest ∧
      (∀ m, Act.output (Event.nearbyReport m) ∈ rest →
        ∀ p ∈ m, search_filter l p.2 = true)) ∧
    (∀ a h, a ∈ listNetwork net → env.resolvePTR a = some h →
      (a, h) ∈ find_nearby_map env (listNetwork net) none) := by
  have hra : rangeActs cfg env = findNearbyActs env (listNetwork net) none := by
    rw [rangeActs, hr]
  obtain ⟨rest, heq, hprop⟩ := fierce_split cfg env l hs hl
  refine ⟨⟨rest, ?_, hprop⟩,
    fun a h ha hres => mem_find_nearby_map_none.mpr ⟨ha, hres⟩⟩
  rw [← hra]
  exact heq

/-- C10 witness: the theorem at a concrete run whose range contains an
address failing the filter and whose subdomain batch contains one passing
it. -/
theorem internal_range_unfiltered_witness :
    (∃ rest, (fierce cfgC10 envC10).1 =
        findNearbyActs envC10 (listNetwork (8, 31)) none ++ rest ∧
      (∀ m, Act.output (Event.nearbyReport m) ∈ rest →
        ∀ p ∈ m, search_filter ["corp"] p.2 = true)) ∧
    (∀ a h, a ∈ listNetwork (8, 31) → envC10.resolvePTR a = some h →
      (a, h) ∈ find_nearby_map envC10 (listNetwork (8, 31)) none) :=
  internal_range_unfiltered cfgC10 envC10 (8, 31) ["corp"] rfl rfl
    (by decide)
